import Mathlib

/-!
A verification development for the Better-Perplexity answer-engine core.

The definitions below are shallow embeddings of the TypeScript source:
JavaScript numbers used for bandit statistics and ranking scores are
modelled as rationals (`ℚ`), JS `Map`s (which preserve insertion order)
as association lists, fallible calls as `Except`, and absent optional
values as `Option`.  Each definition is named after the source function
it embeds.
-/

set_option maxRecDepth 400000

namespace BetterPerplexity

/-! ## Content features and arms (src: ranker/bandit.ts, featureExtractor) -/

/-- The 5-dimensional content-feature tuple (`ContentFeatures`).  The
closed vocabularies of each dimension are irrelevant to the claims, so the
values are plain strings. -/
structure ContentFeatures where
  depth : String
  style : String
  format : String
  approach : String
  density : String
deriving DecidableEq, Repr

/-- `featuresToArms`: the five `dimension:value` arm identifiers. -/
def featuresToArms (f : ContentFeatures) : List String :=
  ["depth:" ++ f.depth, "style:" ++ f.style, "format:" ++ f.format,
   "approach:" ++ f.approach, "density:" ++ f.density]

/-! ## Thompson-sampling bandit (src: ranker/bandit.ts, pending-impression variant) -/

/-- `ArmStats`: fractional success/failure tallies of one arm. -/
structure ArmStats where
  successes : ℚ
  failures : ℚ
deriving DecidableEq, Repr

/-- `PendingImpression`: a shown-but-unresolved source. -/
structure PendingImpression where
  arms : List String
  timestamp : ℤ
  queryId : String
  sourceId : String
deriving DecidableEq, Repr

/-- The `ThompsonSamplingBandit` private state: the `arms` Map (an
insertion-ordered association list) and the pending-impression array. -/
structure Bandit where
  arms : List (String × ArmStats)
  pendingImpressions : List PendingImpression
deriving DecidableEq, Repr

/-- A freshly constructed `ThompsonSamplingBandit`. -/
def Bandit.empty : Bandit := ⟨[], []⟩

/-- `Map.get(key)` on an insertion-ordered association list. -/
def mapGet {β : Type} (a : String) : List (String × β) → Option β
  | [] => none
  | (k, v) :: rest => if k = a then some v else mapGet a rest

/-- `ensureArm`: insert `{successes: 0, failures: 0}` if the arm is absent
(JS `Map.set` appends new keys at the end). -/
def ensureArm (a : String) (m : List (String × ArmStats)) : List (String × ArmStats) :=
  if (mapGet a m).isSome then m else m ++ [(a, ⟨0, 0⟩)]

/-- In-place mutation of the stats object stored under a key. -/
def updateArm (a : String) (f : ArmStats → ArmStats) :
    List (String × ArmStats) → List (String × ArmStats)
  | [] => []
  | (k, v) :: rest =>
    if k = a then (k, f v) :: updateArm a f rest
    else (k, v) :: updateArm a f rest

/-- The body of the `recordClick` loop for one arm: `ensureArm` then
`stats.successes += fraction`. -/
def bumpSuccess (frac : ℚ) (m : List (String × ArmStats)) (a : String) :
    List (String × ArmStats) :=
  updateArm a (fun s => { s with successes := s.successes + frac }) (ensureArm a m)

/-- The body of the `resolvePendingImpressions` loop for one arm:
`ensureArm` then `stats.failures += fraction`. -/
def bumpFailure (frac : ℚ) (m : List (String × ArmStats)) (a : String) :
    List (String × ArmStats) :=
  updateArm a (fun s => { s with failures := s.failures + frac }) (ensureArm a m)

/-- `armsMatch`: same length and every arm of the first list occurs in the
second (the source's order-agnostic comparison). -/
def armsMatch (arms1 arms2 : List String) : Bool :=
  arms1.length == arms2.length && arms1.all (fun a => arms2.contains a)

/-- The `filter` with a `removed` flag in `recordClick`'s fallback branch:
drop the first entry whose arms match. -/
def removeFirstArmsMatch (arms : List String) : List PendingImpression → List PendingImpression
  | [] => []
  | p :: rest =>
    if armsMatch p.arms arms then rest else p :: removeFirstArmsMatch arms rest

/-- `recordPendingImpression(arms, queryId, sourceId)`; `Date.now()` is the
explicit `now` argument. -/
def recordPendingImpression (arms : List String) (queryId sourceId : String) (now : ℤ)
    (b : Bandit) : Bandit :=
  { b with pendingImpressions :=
      b.pendingImpressions ++ [⟨arms, now, queryId, sourceId⟩] }

/-- `recordClick(arms, sourceId?)`: fractional credit `1/|arms|` to every
listed arm, then remove the resolved pending entry — by `sourceId` when the
argument is truthy (a JS empty string is falsy), else the first arms-match. -/
def recordClick (arms : List String) (sourceId : Option String) (b : Bandit) : Bandit :=
  let frac : ℚ := 1 / (arms.length : ℚ)
  let arms2 := arms.foldl (bumpSuccess frac) b.arms
  let pending2 :=
    match sourceId with
    | some sid =>
      if sid = "" then removeFirstArmsMatch arms b.pendingImpressions
      else b.pendingImpressions.filter (fun p => p.sourceId ≠ sid)
    | none => removeFirstArmsMatch arms b.pendingImpressions
  ⟨arms2, pending2⟩

/-- `resolvePendingImpressions(timeoutMs = 25000)`: entries whose age
(`now - timestamp`) is at least the timeout become failures with fractional
credit and are removed; younger entries stay pending. -/
def resolvePendingImpressions (timeoutMs : ℤ) (now : ℤ) (b : Bandit) : Bandit :=
  let toResolve := b.pendingImpressions.filter (fun p => timeoutMs ≤ now - p.timestamp)
  let stillPending := b.pendingImpressions.filter (fun p => now - p.timestamp < timeoutMs)
  let arms2 := toResolve.foldl
    (fun m p => p.arms.foldl (bumpFailure (1 / (p.arms.length : ℚ))) m) b.arms
  ⟨arms2, stillPending⟩

/-- `getArmStats(arm)`. -/
def getArmStats (a : String) (b : Bandit) : Option ArmStats :=
  mapGet a b.arms

/-- `sampleBeta(alpha, beta)`: the deterministic Beta mean. -/
def sampleBeta (alpha beta : ℚ) : ℚ := alpha / (alpha + beta)

/-- `getArmScores()`: Beta(successes+1, failures+1) sampled via
`sampleBeta`, in arm-insertion order. -/
def getArmScores (b : Bandit) : List (String × ℚ) :=
  b.arms.map (fun p => (p.1, sampleBeta (p.2.successes + 1) (p.2.failures + 1)))

/-- Successes tallied for an arm in an arms map (0 when untracked). -/
def listSuccesses (m : List (String × ArmStats)) (x : String) : ℚ :=
  ((mapGet x m).map ArmStats.successes).getD 0

/-- Failures tallied for an arm in an arms map (0 when untracked). -/
def listFailures (m : List (String × ArmStats)) (x : String) : ℚ :=
  ((mapGet x m).map ArmStats.failures).getD 0

/-- Observed successes of an arm (0 when the arm is untracked). -/
def successesOf (b : Bandit) (a : String) : ℚ :=
  listSuccesses b.arms a

/-- Observed failures of an arm (0 when the arm is untracked). -/
def failuresOf (b : Bandit) (a : String) : ℚ :=
  listFailures b.arms a

/-! ## Event store (src: events/store.ts, bandit-aware variant) -/

/-- The event-type enum of `UserEvent`. -/
inductive EventType where
  | SOURCE_CLICKED
  | CITATION_HOVERED
  | SOURCE_EXPANDED
  | ANSWER_SAVED
deriving DecidableEq, Repr

/-- The `meta` payload of an event; `logEvent` only ever reads
`meta.features`, so other keys are not modelled. -/
structure EventMeta where
  features : Option ContentFeatures
deriving DecidableEq, Repr

/-- `UserEvent` from the wire contracts. -/
structure UserEvent where
  userId : String
  timestamp : ℤ
  eventType : EventType
  sourceId : Option String
  queryId : Option String
  meta : Option EventMeta
deriving DecidableEq, Repr

/-- The module-level mutable state of the event store: the append-only
`eventLog` array and the per-user `userBandits` map. -/
structure Store where
  eventLog : List UserEvent
  userBandits : List (String × Bandit)
deriving DecidableEq, Repr

/-- `getUserBandit(userId)`: get-or-create.  Returns the (possibly fresh)
bandit together with the updated map, since the JS version inserts the
fresh bandit into the module-level map. -/
def getUserBandit (userId : String) (m : List (String × Bandit)) :
    Bandit × List (String × Bandit) :=
  match mapGet userId m with
  | some b => (b, m)
  | none => (Bandit.empty, m ++ [(userId, Bandit.empty)])

/-- Write back a mutated bandit object under its key (the JS code mutates
the object held in the map in place). -/
def setUserBandit (userId : String) (b : Bandit) :
    List (String × Bandit) → List (String × Bandit)
  | [] => []
  | (k, v) :: rest =>
    if k = userId then (k, b) :: setUserBandit userId b rest
    else (k, v) :: setUserBandit userId b rest

/-- `logEvent(event)`: append to the log, then update the user's bandit
only for a `SOURCE_CLICKED` event carrying `meta.features` (the
`event.meta?.features` truthiness test). -/
def logEvent (e : UserEvent) (st : Store) : Store :=
  let log2 := st.eventLog ++ [e]
  let gb := getUserBandit e.userId st.userBandits
  if e.eventType = EventType.SOURCE_CLICKED then
    match e.meta.bind EventMeta.features with
    | some f =>
      ⟨log2, setUserBandit e.userId (recordClick (featuresToArms f) e.sourceId gb.1) gb.2⟩
    | none => ⟨log2, gb.2⟩
  else ⟨log2, gb.2⟩

/-- The bandit a user's reads observe: the stored one, or a fresh one. -/
def getUserBanditView (userId : String) (st : Store) : Bandit :=
  (mapGet userId st.userBandits).getD Bandit.empty

/-- `getUserBanditScores(userId)`: the user's `getArmScores()`. -/
def getUserBanditScores (userId : String) (st : Store) : List (String × ℚ) :=
  getArmScores (getUserBanditView userId st)

/-! ## Personalizer (src: ranker/personalize.ts) -/

/-- The fields of `RankedDoc` read or written by the embedded functions
(`applyPersonalization`, `processCitations`). -/
structure RankedDoc where
  id : String
  title : String
  excerpt : String
  domain : String
  score : ℚ
  rankingReason : String
  features : Option ContentFeatures
deriving DecidableEq, Repr

/-- `arm.split(':')[1]`: the value part of a `dimension:value` arm id. -/
def armValue (arm : String) : String :=
  (arm.splitOn ":").getD 1 ""

/-- The per-document body of `applyPersonalization`'s `map`: collect the
bandit scores of the document's feature arms, average them into `boost`,
apply the capped multiplicative boost, and extend the ranking reason when
the boost is significant. -/
def personalizeDoc (banditScores : List (String × ℚ)) (doc : RankedDoc) : RankedDoc :=
  let armScoresForDoc : List (String × ℚ) :=
    match doc.features with
    | some f => (featuresToArms f).filterMap
        (fun a => (mapGet a banditScores).map (fun s => (a, s)))
    | none => []
  let boost : ℚ :=
    if armScoresForDoc.isEmpty then 0
    else (armScoresForDoc.map Prod.snd).sum / (armScoresForDoc.length : ℚ)
  let topFeatures : List String :=
    if armScoresForDoc.isEmpty then []
    else ((armScoresForDoc.mergeSort (fun p q => decide (q.2 ≤ p.2))).take 2).map
      (fun p => armValue p.1)
  let boostMultiplier : ℚ := min (1 + boost * (3 / 10)) (13 / 10)
  let newScore := doc.score * boostMultiplier
  let rankingReason :=
    if boost > 1 / 20 ∧ ¬ topFeatures.isEmpty then
      doc.rankingReason ++ " + personalized (" ++ String.intercalate ", " topFeatures ++ ")"
    else doc.rankingReason
  { doc with score := newScore, rankingReason := rankingReason }

/-- The boost as the spec words it: the mean of the bandit scores present
for the document's feature arms (0 when none are present).  Stated
independently of `personalizeDoc` so the code can be compared against it. -/
def specBoost (banditScores : List (String × ℚ)) (doc : RankedDoc) : ℚ :=
  let present : List ℚ :=
    match doc.features with
    | some f => (featuresToArms f).filterMap (fun a => mapGet a banditScores)
    | none => []
  if present.isEmpty then 0 else present.sum / (present.length : ℚ)

/-- `applyPersonalization(userId, docs)`: identity when the user's bandit
has no scores, otherwise boost every document and re-sort descending by
the new scores (JS `sort` is stable). -/
def applyPersonalization (userId : String) (st : Store) (docs : List RankedDoc) :
    List RankedDoc :=
  let banditScores := getUserBanditScores userId st
  if banditScores.isEmpty then docs
  else
    (docs.map (personalizeDoc banditScores)).mergeSort
      (fun a b => decide (b.score ≤ a.score))

/-! ## Citation processing (src: llm/synthesize.ts) -/

/-- `Citation` from the wire contracts. -/
structure Citation where
  index : ℕ
  sourceId : String
  passage : String
deriving DecidableEq, Repr

/-- Decimal digits to a number (JS `parseInt(..., 10)` on a digit run). -/
def digitsToNat (ds : List Char) : ℕ :=
  ds.foldl (fun n c => 10 * n + (c.toNat - 48)) 0

/-- Greedy `\d+` at the head of the input. -/
def parseNum (cs : List Char) : Option (ℕ × List Char) :=
  let ds := cs.takeWhile Char.isDigit
  let rest := cs.dropWhile Char.isDigit
  if ds.isEmpty then none else some (digitsToNat ds, rest)

/-- One `\s*,\s*\d+` group of the citation regex. -/
def groupItem (cs : List Char) : Option (ℕ × List Char) :=
  match cs.dropWhile Char.isWhitespace with
  | ',' :: r2 => parseNum (r2.dropWhile Char.isWhitespace)
  | _ => none

/-- Greedy `(?:\s*,\s*\d+)*`.  The fuel argument only bounds the
recursion; every successful item consumes at least two characters, so any
fuel of at least the input length is enough. -/
def groupTail : ℕ → List Char → (List ℕ × List Char)
  | 0, cs => ([], cs)
  | fuel + 1, cs =>
    match groupItem cs with
    | some (n, rest) =>
      let pr := groupTail fuel rest
      (n :: pr.1, pr.2)
    | none => ([], cs)

/-- Attempt the citation body `\d+(?:\s*,\s*\d+)*\]` right after a `[`.
Greedy matching agrees with the regex here: no successful group prefix can
be given back, because `]` never starts a group and never ends a digit
run. -/
def matchCitation (cs : List Char) : Option (List ℕ × List Char) :=
  match parseNum cs with
  | none => none
  | some (n, rest) =>
    let pr := groupTail rest.length rest
    match pr.2 with
    | ']' :: rest2 => some (n :: pr.1, rest2)
    | _ => none

/-- The repeated `citationRegex.exec` loop: find each `[...]` citation
group left to right, collecting all numbers.  On a failed attempt the scan
resumes right after the opening bracket, like the regex engine advancing
its start position. -/
def scanCitations : ℕ → List Char → List ℕ
  | 0, _ => []
  | _ + 1, [] => []
  | fuel + 1, c :: rest =>
    if c = '[' then
      match matchCitation rest with
      | some (ns, rest2) => ns ++ scanCitations fuel rest2
      | none => scanCitations fuel rest
    else scanCitations fuel rest

/-- Insert into an ascending list. -/
def insertAsc (n : ℕ) : List ℕ → List ℕ
  | [] => [n]
  | m :: rest => if n ≤ m then n :: m :: rest else m :: insertAsc n rest

/-- Ascending numeric sort (the `.sort((a, b) => a - b)`; on the distinct
values left after deduplication any comparison sort gives this result). -/
def sortAsc : List ℕ → List ℕ
  | [] => []
  | n :: rest => insertAsc n (sortAsc rest)

/-- `extractCitationIndices(text)`: all cited numbers, deduplicated and
sorted ascending. -/
def extractCitationIndices (text : String) : List ℕ :=
  sortAsc ((scanCitations text.data.length text.data).eraseDups)

/-- JS `String.replace` with a global literal pattern: replace every
(leftmost, non-overlapping) occurrence. -/
def replaceAllAux (pat rep : List Char) : ℕ → List Char → List Char
  | 0, cs => cs
  | _ + 1, [] => []
  | fuel + 1, c :: rest =>
    if pat.isPrefixOf (c :: rest) then
      rep ++ replaceAllAux pat rep fuel ((c :: rest).drop pat.length)
    else c :: replaceAllAux pat rep fuel rest

/-- String-level wrapper for `replaceAllAux`. -/
def replaceAll (s pat rep : String) : String :=
  ⟨replaceAllAux pat.data rep.data s.data.length s.data⟩

/-- `findBestMatchingSource(invalidIndex, docs)`: `null` out of bounds,
else the index itself (the source never actually re-maps). -/
def findBestMatchingSource (invalidIndex : ℕ) (docs : List RankedDoc) : Option ℕ :=
  if invalidIndex > docs.length ∨ invalidIndex < 1 then none else some invalidIndex

/-- Placeholder for `docs[index - 1]`; the valid branch guarantees the
index is in bounds, so the default is never read. -/
def defaultRankedDoc : RankedDoc := ⟨"", "", "", "", 0, "", none⟩

/-- The passage stored in a citation: the excerpt, shortened to its first
200 characters plus an ellipsis when longer than 200. -/
def citationPassage (excerpt : String) : String :=
  if excerpt.length > 200 then excerpt.take 200 ++ "..." else excerpt

/-- One iteration of the `processCitations` loop over a cited index. -/
def processCitationsStep (docs : List RankedDoc) (acc : String × List Citation)
    (index : ℕ) : String × List Citation :=
  if index < 1 ∨ index > docs.length then
    match findBestMatchingSource index docs with
    | some corrected =>
      (replaceAll acc.1 ("[" ++ toString index ++ "]") ("[" ++ toString corrected ++ "]"),
        acc.2)
    | none =>
      (replaceAll acc.1 ("[" ++ toString index ++ "]") (toString index), acc.2)
  else
    let doc := docs.getD (index - 1) defaultRankedDoc
    (acc.1, acc.2 ++ [⟨index, doc.id, citationPassage doc.excerpt⟩])

/-- `processCitations(text, docs)`: fold the loop over the extracted
indices, producing the processed text and the citation list. -/
def processCitations (text : String) (docs : List RankedDoc) : String × List Citation :=
  (extractCitationIndices text).foldl (processCitationsStep docs) (text, [])

/-! ## Query planner (src: planner/plan.ts) -/

/-- `QueryPlan` from the wire contracts. -/
structure QueryPlan where
  originalQuery : String
  subQueries : List String
  strategy : String
deriving DecidableEq, Repr

/-- `createQueryPlan(query)`.  The LLM call is injected as an `Except`
value: `error` is a parse/validation/transport failure thrown by
`callLLM`, `ok` is its raw `subQueries` array, which `callLLM` accepts only
when the `SubQueriesSchema` bound `2 ≤ n ≤ 5` holds (otherwise the schema
`throw` lands in the same `catch`).  The `catch` produces the single-query
fallback plan, so the function never raises. -/
def createQueryPlan (query : String) (llmResult : Except String (List String)) : QueryPlan :=
  match llmResult with
  | Except.ok subs =>
    if 2 ≤ subs.length ∧ subs.length ≤ 5 then
      ⟨query, subs.take 5, "llm"⟩
    else
      ⟨query, [query], "fallback"⟩
  | Except.error _ => ⟨query, [query], "fallback"⟩

/-! ## Search hits and URL handling (src: search/parallelSearch.ts, providers) -/

/-- `SearchResult` from the wire contracts (the fields the embedded
functions read). -/
structure SearchResult where
  id : String
  url : String
  title : String
  snippet : String
  domain : String
deriving DecidableEq, Repr

/-- The tail of the input after the first `://`, if any (models the
scheme/authority split `new URL` performs on common http(s) URLs). -/
def afterSchemeMarker : List Char → Option (List Char)
  | [] => none
  | c :: rest =>
    if (c :: rest).take 3 = [':', '/', '/'] then some ((c :: rest).drop 3)
    else afterSchemeMarker rest

/-- The `(hostname, pathname, search)` triple of a URL, as the WHATWG
parser exposes them for http(s) URLs: hostname excludes the port, the
pathname of an empty path is `/`, the search includes its leading `?` and
excludes the fragment.  `none` models the `new URL` constructor throwing. -/
def urlParts (url : String) : Option (String × String × String) :=
  match afterSchemeMarker url.data with
  | none => none
  | some rest =>
    let hostPort := rest.takeWhile (fun c => c != '/' && c != '?' && c != '#')
    let hostname := hostPort.takeWhile (fun c => c != ':')
    let afterAuth := rest.drop hostPort.length
    let pathRaw := afterAuth.takeWhile (fun c => c != '?' && c != '#')
    let path := if pathRaw.isEmpty then "/" else String.mk pathRaw
    let afterPath := afterAuth.drop pathRaw.length
    let search :=
      match afterPath with
      | '?' :: _ => String.mk (afterPath.takeWhile (fun c => c != '#'))
      | _ => ""
    some (String.mk hostname, path, search)

/-- JS `toLowerCase` on the ASCII range. -/
def lowerAscii (s : String) : String := ⟨s.data.map Char.toLower⟩

/-- `url.hostname.toLowerCase()` (the WHATWG parser already lowercases;
the source lowercases again). -/
def urlHostname (url : String) : Option String :=
  (urlParts url).map (fun t => lowerAscii t.1)

/-- JS `String.includes`: substring containment. -/
def containsSubAux (pat : List Char) : List Char → Bool
  | [] => pat.isEmpty
  | c :: rest => pat.isPrefixOf (c :: rest) || containsSubAux pat rest

/-- JS `String.includes`: substring containment. -/
def containsSub (s pat : String) : Bool :=
  containsSubAux pat.data s.data

/-- The hostname test `filterWikipediaSources` actually performs:
hostname contains the substring `wikipedia.org` or `wikimedia.org`
(unparseable URLs test negative and are kept). -/
def hostContainsWiki (url : String) : Bool :=
  match urlHostname url with
  | some host => containsSub host "wikipedia.org" || containsSub host "wikimedia.org"
  | none => false

/-- `filterWikipediaSources(results)`. -/
def filterWikipediaSources (results : List SearchResult) : List SearchResult :=
  results.filter (fun r => ! hostContainsWiki r.url)

/-- The authority-filter step of `executeParallelSearch`: use the filtered
list only when at least 5 hits remain, else keep the merged list. -/
def applyWikipediaFilter (merged : List SearchResult) : List SearchResult :=
  let filtered := filterWikipediaSources merged
  if 5 ≤ filtered.length then filtered else merged

/-- The claim's authority predicate, worded as in the spec: the host
matches `*.wikipedia.org` or `*.wikimedia.org`.  Stated independently of
the source so the code can be compared against it. -/
def specWikiGlobHost (host : String) : Bool :=
  host == "wikipedia.org" || (".wikipedia.org".data).isSuffixOf host.data ||
    host == "wikimedia.org" || (".wikimedia.org".data).isSuffixOf host.data

/-- `normalizeUrl(url)` from the parallel searcher: lowercase host, strip
a leading `www.`, strip a trailing slash from a non-root path, keep the
query string, drop the scheme; unparseable URLs fall back to
lowercasing. -/
def normalizeUrl (url : String) : String :=
  match urlParts url with
  | none => lowerAscii url
  | some (host, path, search) =>
    let hostname := lowerAscii host
    let hostname2 :=
      if ("www.".data).isPrefixOf hostname.data then ⟨hostname.data.drop 4⟩ else hostname
    let path2 :=
      if path.data.getLast? = some '/' ∧ 1 < path.length then ⟨path.data.dropLast⟩ else path
    hostname2 ++ path2 ++ search

/-! ## MD5 and the Brave search-hit id (src: providers/brave.ts) -/

/-- The 64 MD5 sine-derived round constants. -/
def md5K : List ℕ := [
  3614090360, 3905402710, 606105819, 3250441966, 4118548399, 1200080426, 2821735955, 4249261313,
  1770035416, 2336552879, 4294925233, 2304563134, 1804603682, 4254626195, 2792965006, 1236535329,
  4129170786, 3225465664, 643717713, 3921069994, 3593408605, 38016083, 3634488961, 3889429448,
  568446438, 3275163606, 4107603335, 1163531501, 2850285829, 4243563512, 1735328473, 2368359562,
  4294588738, 2272392833, 1839030562, 4259657740, 2763975236, 1272893353, 4139469664, 3200236656,
  681279174, 3936430074, 3572445317, 76029189, 3654602809, 3873151461, 530742520, 3299628645,
  4096336452, 1126891415, 2878612391, 4237533241, 1700485571, 2399980690, 4293915773, 2240044497,
  1873313359, 4264355552, 2734768916, 1309151649, 4149444226, 3174756917, 718787259, 3951481745]

/-- The 64 MD5 per-round left-rotation amounts. -/
def md5S : List ℕ := [
  7, 12, 17, 22, 7, 12, 17, 22,
  7, 12, 17, 22, 7, 12, 17, 22,
  5, 9, 14, 20, 5, 9, 14, 20,
  5, 9, 14, 20, 5, 9, 14, 20,
  4, 11, 16, 23, 4, 11, 16, 23,
  4, 11, 16, 23, 4, 11, 16, 23,
  6, 10, 15, 21, 6, 10, 15, 21,
  6, 10, 15, 21, 6, 10, 15, 21]

/-- 32-bit left rotation. -/
def rotl32 (x n : ℕ) : ℕ :=
  (((x <<< n) % 4294967296) ||| (x >>> (32 - n))) % 4294967296

/-- 32-bit modular addition. -/
def add32 (a b : ℕ) : ℕ := (a + b) % 4294967296

/-- The MD5 round mixing function for round `r`. -/
def md5F (r b c d : ℕ) : ℕ :=
  if r < 16 then (b &&& c) ||| ((b ^^^ 4294967295) &&& d)
  else if r < 32 then (d &&& b) ||| ((d ^^^ 4294967295) &&& c)
  else if r < 48 then b ^^^ c ^^^ d
  else c ^^^ (b ||| (d ^^^ 4294967295))

/-- The MD5 message-word index for round `r`. -/
def md5G (r : ℕ) : ℕ :=
  if r < 16 then r
  else if r < 32 then (5 * r + 1) % 16
  else if r < 48 then (3 * r + 5) % 16
  else (7 * r) % 16

/-- Little-endian 32-bit word `j` of a 64-byte chunk. -/
def md5Word (chunk : List ℕ) (j : ℕ) : ℕ :=
  chunk.getD (4 * j) 0 + 256 * chunk.getD (4 * j + 1) 0 +
    65536 * chunk.getD (4 * j + 2) 0 + 16777216 * chunk.getD (4 * j + 3) 0

/-- One MD5 round on the `(a, b, c, d)` state. -/
def md5Round (chunk : List ℕ) (st : ℕ × ℕ × ℕ × ℕ) (r : ℕ) : ℕ × ℕ × ℕ × ℕ :=
  let f := add32 (add32 (add32 (md5F r st.2.1 st.2.2.1 st.2.2.2) st.1) (md5K.getD r 0))
    (md5Word chunk (md5G r))
  (st.2.2.2, add32 st.2.1 (rotl32 f (md5S.getD r 0)), st.2.1, st.2.2.1)

/-- Process one 64-byte chunk. -/
def md5Chunk (st : ℕ × ℕ × ℕ × ℕ) (chunk : List ℕ) : ℕ × ℕ × ℕ × ℕ :=
  let r := (List.range 64).foldl (md5Round chunk) st
  (add32 st.1 r.1, add32 st.2.1 r.2.1, add32 st.2.2.1 r.2.2.1, add32 st.2.2.2 r.2.2.2)

/-- Split into 64-byte chunks (the fuel only bounds the recursion). -/
def toChunksAux : ℕ → List ℕ → List (List ℕ)
  | 0, _ => []
  | _ + 1, [] => []
  | fuel + 1, l => l.take 64 :: toChunksAux fuel (l.drop 64)

/-- Split into 64-byte chunks. -/
def toChunks (l : List ℕ) : List (List ℕ) := toChunksAux l.length l

/-- The `n` little-endian bytes of `x`. -/
def leBytes (x n : ℕ) : List ℕ :=
  (List.range n).map (fun i => (x >>> (8 * i)) % 256)

/-- MD5 padding: `0x80`, zeros to 56 mod 64, 8-byte little-endian bit
length. -/
def md5Pad (msg : List ℕ) : List ℕ :=
  let z := (56 + 64 - ((msg.length + 1) % 64)) % 64
  msg ++ [128] ++ List.replicate z 0 ++
    leBytes ((8 * msg.length) % 18446744073709551616) 8

/-- The 16-byte MD5 digest of a byte sequence. -/
def md5Bytes (msg : List ℕ) : List ℕ :=
  let st := (toChunks (md5Pad msg)).foldl md5Chunk
    (1732584193, 4023233417, 2562383102, 271733878)
  leBytes st.1 4 ++ leBytes st.2.1 4 ++ leBytes st.2.2.1 4 ++ leBytes st.2.2.2 4

/-- One lowercase hexadecimal digit. -/
def hexDigit (n : ℕ) : Char :=
  if n < 10 then Char.ofNat (48 + n) else Char.ofNat (87 + n)

/-- Two lowercase hexadecimal digits of one byte. -/
def byteHex (b : ℕ) : List Char := [hexDigit (b / 16), hexDigit (b % 16)]

/-- The lowercase hex MD5 digest (`createHash('md5').digest('hex')`). -/
def md5Hex (msg : List ℕ) : String :=
  ⟨(md5Bytes msg).foldr (fun b acc => byteHex b ++ acc) []⟩

/-- The UTF-8 bytes of a string; the URLs involved are ASCII, where the
code points are the bytes. -/
def strBytes (s : String) : List ℕ := s.data.map Char.toNat

/-- The id `searchWithBrave` assigns to a hit:
`brave-` followed by the first 8 hex characters of the MD5 of the exact
URL string (`createHash('md5').update(result.url)`). -/
def braveId (url : String) : String :=
  "brave-" ++ (md5Hex (strBytes url)).take 8

/-! ## The answer route's SSE stream (src: routes/answer.ts) -/

/-- One `data: {type, data}` SSE frame, by type. -/
inductive SseFrame where
  | progress (stage : String)
  | chunk (text : String)
  | complete
  | error
deriving DecidableEq, Repr

/-- The parsed `POST /api/answer` body. -/
structure AnswerRequest where
  query : String
  userId : Option String
  plan : Option (List String)
deriving DecidableEq, Repr

/-- The outcome of every fallible await of the handler, injected so the
handler's control flow can be run over all combinations: body parsing, the
planner's LLM call, the parallel search, the scrape, the synthesis
(chunks streamed before its outcome) and the final packet validation. -/
structure AnswerOutcomes where
  parsed : Except String AnswerRequest
  planLLM : Except String (List String)
  searchOutcome : Except String (List SearchResult)
  scrapeOutcome : Except String Unit
  synthChunks : List String
  synthOutcome : Except String Unit
  validateOutcome : Except String Unit

/-- The frames the `POST /api/answer` handler writes: the `try` block
emits `progress` frames per stage, `chunk` frames from the streaming
callback and one final `complete`; any `throw` lands in the `catch`,
which emits one `error` frame and ends the stream. -/
def handleAnswer (o : AnswerOutcomes) : List SseFrame :=
  match o.parsed with
  | Except.error _ => [SseFrame.error]
  | Except.ok req =>
    SseFrame.progress "planning" ::
      (let plan := match req.plan with
        | some subs => subs
        | none => (createQueryPlan req.query o.planLLM).subQueries
      SseFrame.progress "searching" ::
        match o.searchOutcome with
        | Except.error _ => [SseFrame.error]
        | Except.ok _ =>
          match o.scrapeOutcome with
          | Except.error _ => [SseFrame.error]
          | Except.ok _ =>
            SseFrame.progress "analyzing" ::
              SseFrame.progress "synthesizing" ::
                (o.synthChunks.map SseFrame.chunk ++
                  match o.synthOutcome with
                  | Except.error _ => [SseFrame.error]
                  | Except.ok _ =>
                    match o.validateOutcome with
                    | Except.error _ => [SseFrame.error]
                    | Except.ok _ => [SseFrame.complete]))

/-- Terminal frames: `complete` and `error`. -/
def isTerminal : SseFrame → Bool
  | SseFrame.complete => true
  | SseFrame.error => true
  | _ => false

/-! ### Lemmas about the arms map -/

theorem mapGet_updateArm (a x : String) (f : ArmStats → ArmStats) (m : List (String × ArmStats)) :
    mapGet x (updateArm a f m) = if x = a then (mapGet x m).map f else mapGet x m := by
  induction m with
  | nil => simp [updateArm, mapGet]
  | cons p rest ih =>
    obtain ⟨k, v⟩ := p
    by_cases hka : k = a
    · subst hka
      by_cases hkx : k = x
      · subst hkx
        simp [updateArm, mapGet, ih]
      · have hxk : ¬ x = k := fun h => hkx h.symm
        simp [updateArm, mapGet, hkx, hxk, ih]
    · by_cases hkx : k = x
      · subst hkx
        simp [updateArm, mapGet, hka, ih]
      · have hxk : ¬ x = k := fun h => hkx h.symm
        simp [updateArm, mapGet, hka, hkx, hxk, ih]

theorem mapGet_ensureArm (a x : String) (m : List (String × ArmStats)) :
    mapGet x (ensureArm a m) =
      if x = a then some ((mapGet a m).getD ⟨0, 0⟩) else mapGet x m := by
  unfold ensureArm
  by_cases h : (mapGet a m).isSome
  · obtain ⟨v, hv⟩ := Option.isSome_iff_exists.mp h
    by_cases hxa : x = a
    · subst hxa; simp_all
    · simp_all
  · have h0 : mapGet a m = none := Option.not_isSome_iff_eq_none.mp h
    clear h
    induction m with
    | nil =>
      by_cases hxa : x = a
      · subst hxa; simp [mapGet]
      · have hax : ¬ a = x := fun h => hxa h.symm
        simp [mapGet, hxa, hax]
    | cons p rest ih =>
      obtain ⟨k, v⟩ := p
      by_cases hka : k = a
      · subst hka
        simp [mapGet] at h0
      · by_cases hkx : k = x
        · subst hkx
          simp_all [mapGet]
        · simp_all [mapGet]

theorem listSuccesses_bumpSuccess (q : ℚ) (a x : String) (m : List (String × ArmStats)) :
    listSuccesses (bumpSuccess q m a) x =
      listSuccesses m x + (if x = a then q else 0) := by
  unfold listSuccesses bumpSuccess
  rw [mapGet_updateArm]
  by_cases hxa : x = a
  · subst hxa
    rw [mapGet_ensureArm]
    cases h : mapGet x m <;> simp [h]
  · rw [mapGet_ensureArm]
    simp [hxa]

theorem listFailures_bumpSuccess (q : ℚ) (a x : String) (m : List (String × ArmStats)) :
    listFailures (bumpSuccess q m a) x = listFailures m x := by
  unfold listFailures bumpSuccess
  rw [mapGet_updateArm]
  by_cases hxa : x = a
  · subst hxa
    rw [mapGet_ensureArm]
    cases h : mapGet x m <;> simp [h]
  · rw [mapGet_ensureArm]
    simp [hxa]

theorem listFailures_bumpFailure (q : ℚ) (a x : String) (m : List (String × ArmStats)) :
    listFailures (bumpFailure q m a) x =
      listFailures m x + (if x = a then q else 0) := by
  unfold listFailures bumpFailure
  rw [mapGet_updateArm]
  by_cases hxa : x = a
  · subst hxa
    rw [mapGet_ensureArm]
    cases h : mapGet x m <;> simp [h]
  · rw [mapGet_ensureArm]
    simp [hxa]

theorem listSuccesses_bumpFailure (q : ℚ) (a x : String) (m : List (String × ArmStats)) :
    listSuccesses (bumpFailure q m a) x = listSuccesses m x := by
  unfold listSuccesses bumpFailure
  rw [mapGet_updateArm]
  by_cases hxa : x = a
  · subst hxa
    rw [mapGet_ensureArm]
    cases h : mapGet x m <;> simp [h]
  · rw [mapGet_ensureArm]
    simp [hxa]

theorem listSuccesses_foldl_bumpSuccess (arms : List String) (q : ℚ) (x : String)
    (m : List (String × ArmStats)) :
    listSuccesses (arms.foldl (bumpSuccess q) m) x =
      listSuccesses m x + (arms.count x : ℚ) * q := by
  induction arms generalizing m with
  | nil => simp
  | cons a rest ih =>
    rw [List.foldl_cons, ih, listSuccesses_bumpSuccess, List.count_cons]
    by_cases hxa : x = a
    · subst hxa
      simp
      ring
    · have hax : (a == x) = false := by simpa using fun h => hxa h.symm
      simp [hxa, hax]

theorem listFailures_foldl_bumpSuccess (arms : List String) (q : ℚ) (x : String)
    (m : List (String × ArmStats)) :
    listFailures (arms.foldl (bumpSuccess q) m) x = listFailures m x := by
  induction arms generalizing m with
  | nil => simp
  | cons a rest ih =>
    rw [List.foldl_cons, ih, listFailures_bumpSuccess]

theorem listFailures_foldl_bumpFailure (arms : List String) (q : ℚ) (x : String)
    (m : List (String × ArmStats)) :
    listFailures (arms.foldl (bumpFailure q) m) x =
      listFailures m x + (arms.count x : ℚ) * q := by
  induction arms generalizing m with
  | nil => simp
  | cons a rest ih =>
    rw [List.foldl_cons, ih, listFailures_bumpFailure, List.count_cons]
    by_cases hxa : x = a
    · subst hxa
      simp
      ring
    · have hax : (a == x) = false := by simpa using fun h => hxa h.symm
      simp [hxa, hax]

theorem listSuccesses_foldl_bumpFailure (arms : List String) (q : ℚ) (x : String)
    (m : List (String × ArmStats)) :
    listSuccesses (arms.foldl (bumpFailure q) m) x = listSuccesses m x := by
  induction arms generalizing m with
  | nil => simp
  | cons a rest ih =>
    rw [List.foldl_cons, ih, listSuccesses_bumpFailure]

/-- Effect of the `resolvePendingImpressions` failure loop on one arm. -/
theorem listFailures_resolveFold (entries : List PendingImpression) (x : String)
    (m : List (String × ArmStats)) :
    listFailures
        (entries.foldl (fun acc p => p.arms.foldl (bumpFailure (1 / (p.arms.length : ℚ))) acc) m) x =
      listFailures m x +
        (entries.map (fun p => (p.arms.count x : ℚ) * (1 / (p.arms.length : ℚ)))).sum := by
  induction entries generalizing m with
  | nil => simp
  | cons p rest ih =>
    rw [List.foldl_cons, ih, listFailures_foldl_bumpFailure]
    simp
    ring

theorem listSuccesses_resolveFold (entries : List PendingImpression) (x : String)
    (m : List (String × ArmStats)) :
    listSuccesses
        (entries.foldl (fun acc p => p.arms.foldl (bumpFailure (1 / (p.arms.length : ℚ))) acc) m) x =
      listSuccesses m x := by
  induction entries generalizing m with
  | nil => simp
  | cons p rest ih =>
    rw [List.foldl_cons, ih, listSuccesses_foldl_bumpFailure]

theorem armsMatch_iff (l1 l2 : List String) (h1 : l1.Nodup) (h2 : l2.Nodup) :
    armsMatch l1 l2 = true ↔ l1.toFinset = l2.toFinset := by
  simp only [armsMatch, Bool.and_eq_true, beq_iff_eq, List.all_eq_true, List.elem_iff]
  constructor
  · rintro ⟨hlen, hsub⟩
    apply Finset.eq_of_subset_of_card_le
    · intro a ha
      simp only [List.mem_toFinset] at ha ⊢
      exact hsub a ha
    · rw [List.toFinset_card_of_nodup h1, List.toFinset_card_of_nodup h2]
      omega
  · intro hset
    constructor
    · rw [← List.toFinset_card_of_nodup h1, ← List.toFinset_card_of_nodup h2, hset]
    · intro a ha
      have h3 : a ∈ l1.toFinset := List.mem_toFinset.mpr ha
      rw [hset] at h3
      exact List.mem_toFinset.mp h3

/-- When all involved arm lists are duplicate-free, the source's
first-arms-match removal is removal of the first entry whose arm set equals
the clicked arm set. -/
theorem removeFirst_eq_eraseP (arms : List String) (l : List PendingImpression)
    (harms : arms.Nodup) (hl : ∀ p ∈ l, p.arms.Nodup) :
    removeFirstArmsMatch arms l =
      l.eraseP (fun p => decide (p.arms.toFinset = arms.toFinset)) := by
  induction l with
  | nil => simp [removeFirstArmsMatch]
  | cons p rest ih =>
    have hp : p.arms.Nodup := hl p (by simp)
    have hrest : ∀ q ∈ rest, q.arms.Nodup := fun q hq => hl q (by simp [hq])
    by_cases hm : armsMatch p.arms arms = true
    · have hset : p.arms.toFinset = arms.toFinset := (armsMatch_iff _ _ hp harms).mp hm
      simp [removeFirstArmsMatch, hm, List.eraseP_cons, hset]
    · have hset : ¬ p.arms.toFinset = arms.toFinset :=
        fun h => hm ((armsMatch_iff _ _ hp harms).mpr h)
      simp [removeFirstArmsMatch, hm, List.eraseP_cons, hset, ih hrest]

theorem mapGet_mapSnd {β γ : Type} (g : β → γ) (x : String) (m : List (String × β)) :
    mapGet x (m.map (fun p => (p.1, g p.2))) = (mapGet x m).map g := by
  induction m with
  | nil => simp [mapGet]
  | cons p rest ih =>
    obtain ⟨k, v⟩ := p
    by_cases hkx : k = x
    · subst hkx
      simp [mapGet, ih]
    · simp [mapGet, hkx, ih]

/-- C1: Every pending impression is resolved exactly once and then removed.
A `recordClick` with a (truthy) `sourceId` removes the matching pending
entries and changes no arm's failures; a `recordClick` without `sourceId`
removes exactly the first pending entry whose arm set equals the clicked
arm set (arm lists recorded through `featuresToArms` are duplicate-free)
and changes no failures; `resolvePendingImpressions` keeps exactly the
entries younger than the timeout, adds `1/|arms|` failure credit per
removed entry to each of its arms, and changes no successes; and the
record-impression / click / resolve-past-timeout sequence on five arms
leaves each arm with successes 1/5 and failures 0. -/
theorem pendingImpression_resolved_exactly_once :
    (∀ (b : Bandit) (arms : List String) (sid : String), sid ≠ "" →
      (recordClick arms (some sid) b).pendingImpressions
          = b.pendingImpressions.filter (fun p => p.sourceId ≠ sid)
        ∧ ∀ x, failuresOf (recordClick arms (some sid) b) x = failuresOf b x)
    ∧ (∀ (b : Bandit) (arms : List String), arms.Nodup →
        (∀ p ∈ b.pendingImpressions, p.arms.Nodup) →
      (recordClick arms none b).pendingImpressions
          = b.pendingImpressions.eraseP (fun p => decide (p.arms.toFinset = arms.toFinset))
        ∧ ∀ x, failuresOf (recordClick arms none b) x = failuresOf b x)
    ∧ (∀ (b : Bandit) (t n : ℤ),
        (∀ p, p ∈ (resolvePendingImpressions t n b).pendingImpressions ↔
          p ∈ b.pendingImpressions ∧ n - p.timestamp < t)
        ∧ (∀ x, failuresOf (resolvePendingImpressions t n b) x =
            failuresOf b x +
              ((b.pendingImpressions.filter (fun p => t ≤ n - p.timestamp)).map
                (fun p => (p.arms.count x : ℚ) * (1 / (p.arms.length : ℚ)))).sum)
        ∧ (∀ x, successesOf (resolvePendingImpressions t n b) x = successesOf b x))
    ∧ (∀ x ∈ (["a", "b", "c", "d", "e"] : List String),
        successesOf
          (resolvePendingImpressions 25000 30000
            (recordClick ["a", "b", "c", "d", "e"] (some "s1")
              (recordPendingImpression ["a", "b", "c", "d", "e"] "q1" "s1" 0 Bandit.empty))) x
          = 1 / 5 ∧
        failuresOf
          (resolvePendingImpressions 25000 30000
            (recordClick ["a", "b", "c", "d", "e"] (some "s1")
              (recordPendingImpression ["a", "b", "c", "d", "e"] "q1" "s1" 0 Bandit.empty))) x
          = 0) := by
  refine ⟨?_, ?_, ?_, ?_⟩
  · intro b arms sid hsid
    constructor
    · simp [recordClick, hsid]
    · intro x
      simpa [recordClick, failuresOf, hsid] using
        listFailures_foldl_bumpSuccess arms (1 / (arms.length : ℚ)) x b.arms
  · intro b arms harms hpend
    constructor
    · simp only [recordClick]
      exact removeFirst_eq_eraseP arms b.pendingImpressions harms hpend
    · intro x
      simpa [recordClick, failuresOf] using
        listFailures_foldl_bumpSuccess arms (1 / (arms.length : ℚ)) x b.arms
  · intro b t n
    refine ⟨?_, ?_, ?_⟩
    · intro p
      simp [resolvePendingImpressions, List.mem_filter]
    · intro x
      simpa [resolvePendingImpressions, failuresOf] using
        listFailures_resolveFold
          (b.pendingImpressions.filter (fun p => t ≤ n - p.timestamp)) x b.arms
    · intro x
      simpa [resolvePendingImpressions, successesOf] using
        listSuccesses_resolveFold
          (b.pendingImpressions.filter (fun p => t ≤ n - p.timestamp)) x b.arms
  · intro x hx
    fin_cases hx <;>
      constructor <;>
        norm_num [successesOf, failuresOf, listSuccesses, listFailures,
          resolvePendingImpressions, recordClick, recordPendingImpression, Bandit.empty,
          bumpSuccess, bumpFailure, ensureArm, updateArm, mapGet, List.foldl, List.filter]

/-- Witness for C1: the lifecycle theorem applied at concrete inputs, with
all hypotheses discharged. -/
theorem pendingImpression_resolved_exactly_once_witness :
    (recordClick ["a"] (some "s1")
        (recordPendingImpression ["a"] "q1" "s1" 0 Bandit.empty)).pendingImpressions
      = (recordPendingImpression ["a"] "q1" "s1" 0
          Bandit.empty).pendingImpressions.filter (fun p => p.sourceId ≠ "s1")
    ∧ (recordClick ["a", "b"] none Bandit.empty).pendingImpressions
      = Bandit.empty.pendingImpressions.eraseP
          (fun p => decide (p.arms.toFinset = (["a", "b"] : List String).toFinset))
    ∧ successesOf
        (resolvePendingImpressions 25000 30000
          (recordClick ["a", "b", "c", "d", "e"] (some "s1")
            (recordPendingImpression ["a", "b", "c", "d", "e"] "q1" "s1" 0 Bandit.empty))) "a"
        = 1 / 5 := by
  refine ⟨?_, ?_, ?_⟩
  · exact (pendingImpression_resolved_exactly_once.1
      (recordPendingImpression ["a"] "q1" "s1" 0 Bandit.empty) ["a"] "s1" (by decide)).1
  · exact (pendingImpression_resolved_exactly_once.2.1 Bandit.empty ["a", "b"]
      (by decide) (by intro p hp; simp [Bandit.empty] at hp)).1
  · exact (pendingImpression_resolved_exactly_once.2.2.2 "a" (by decide)).1

/-- C2 counterexample: with the duplicated arm list `["a", "a"]` (length
n = 2), `recordClick` adds the fractional credit once per occurrence, so
arm `a`'s successes grow by 1, not by 1/n = 1/2. -/
theorem recordClick_duplicate_arm_counterexample :
    successesOf (recordClick ["a", "a"] none Bandit.empty) "a" = 1
      ∧ ((1 : ℚ) ≠ 1 / 2) := by
  constructor
  · norm_num [successesOf, listSuccesses, recordClick, Bandit.empty,
      bumpSuccess, ensureArm, updateArm, mapGet, List.foldl]
  · norm_num

/-- C2 (amended): `recordClick(arms)` adds `occurrences · (1/|arms|)` to
each arm's successes — exactly `1/|arms|` per listed arm when the list is
duplicate-free — and never changes failures; from a fresh bandit, one click
on five distinct arms leaves each with successes 1/5 and failures 0. -/
theorem recordClick_fractional_credit :
    (∀ (b : Bandit) (arms : List String) (sid : Option String) (x : String),
      successesOf (recordClick arms sid b) x
        = successesOf b x + (arms.count x : ℚ) * (1 / (arms.length : ℚ)))
    ∧ (∀ (b : Bandit) (arms : List String) (sid : Option String) (x : String),
      failuresOf (recordClick arms sid b) x = failuresOf b x)
    ∧ (∀ x ∈ (["a", "b", "c", "d", "e"] : List String),
      successesOf (recordClick ["a", "b", "c", "d", "e"] none Bandit.empty) x = 1 / 5
        ∧ failuresOf (recordClick ["a", "b", "c", "d", "e"] none Bandit.empty) x = 0) := by
  refine ⟨?_, ?_, ?_⟩
  · intro b arms sid x
    simpa [recordClick, successesOf] using
      listSuccesses_foldl_bumpSuccess arms (1 / (arms.length : ℚ)) x b.arms
  · intro b arms sid x
    simpa [recordClick, failuresOf] using
      listFailures_foldl_bumpSuccess arms (1 / (arms.length : ℚ)) x b.arms
  · intro x hx
    fin_cases hx <;>
      constructor <;>
        norm_num [successesOf, failuresOf, listSuccesses, listFailures,
          recordClick, Bandit.empty, bumpSuccess, ensureArm, updateArm, mapGet,
          List.foldl]

/-- Witness for C2 (amended): the theorem applied at a 5-arm click on a
fresh bandit. -/
theorem recordClick_fractional_credit_witness :
    successesOf (recordClick ["a", "b", "c", "d", "e"] none Bandit.empty) "a" = 1 / 5
      ∧ failuresOf (recordClick ["a", "b", "c", "d", "e"] none Bandit.empty) "a" = 0 :=
  recordClick_fractional_credit.2.2 "a" (by decide)

theorem getUserBandit_snd_mapGet (u x : String) (m : List (String × Bandit)) :
    mapGet x (getUserBandit u m).2 =
      if x = u then some ((mapGet u m).getD Bandit.empty) else mapGet x m := by
  unfold getUserBandit
  cases h : mapGet u m with
  | some b =>
    by_cases hxu : x = u
    · subst hxu; simp [h]
    · simp [hxu]
  | none =>
    induction m with
    | nil =>
      by_cases hxu : x = u
      · subst hxu; simp [mapGet]
      · have hux : ¬ u = x := fun hh => hxu hh.symm
        simp [mapGet, hxu, hux]
    | cons p rest ih =>
      obtain ⟨k, v⟩ := p
      by_cases hku : k = u
      · subst hku
        simp [mapGet] at h
      · by_cases hkx : k = x
        · subst hkx
          simp_all [mapGet]
        · simp_all [mapGet]

theorem filterMap_pairs_snd (arms : List String) (scores : List (String × ℚ)) :
    (arms.filterMap (fun a => (mapGet a scores).map (fun s => (a, s)))).map Prod.snd
      = arms.filterMap (fun a => mapGet a scores) := by
  induction arms with
  | nil => rfl
  | cons a rest ih => cases h : mapGet a scores <;> simp [h, ih]

/-- C10: `logEvent` appends every event to the log, and mutates bandit
state only for a `SOURCE_CLICKED` event carrying `meta.features`: for
every other event the observable bandit of every user — arm statistics of
every arm and the pending-impression list — is unchanged. -/
theorem logEvent_append_and_frame :
    (∀ (st : Store) (e : UserEvent), (logEvent e st).eventLog = st.eventLog ++ [e])
    ∧ (∀ (st : Store) (e : UserEvent),
        ¬ (e.eventType = EventType.SOURCE_CLICKED ∧ (e.meta.bind EventMeta.features).isSome) →
        ∀ u, getUserBanditView u (logEvent e st) = getUserBanditView u st)
    ∧ (∀ (st : Store) (e : UserEvent),
        ¬ (e.eventType = EventType.SOURCE_CLICKED ∧ (e.meta.bind EventMeta.features).isSome) →
        ∀ u a, getArmStats a (getUserBanditView u (logEvent e st))
            = getArmStats a (getUserBanditView u st)
          ∧ (getUserBanditView u (logEvent e st)).pendingImpressions
            = (getUserBanditView u st).pendingImpressions) := by
  have hview : ∀ (st : Store) (e : UserEvent),
      ¬ (e.eventType = EventType.SOURCE_CLICKED ∧ (e.meta.bind EventMeta.features).isSome) →
      ∀ u, getUserBanditView u (logEvent e st) = getUserBanditView u st := by
    intro st e hne u
    have tail : getUserBanditView u
        ⟨st.eventLog ++ [e], (getUserBandit e.userId st.userBandits).2⟩
          = getUserBanditView u st := by
      unfold getUserBanditView
      simp only
      rw [getUserBandit_snd_mapGet]
      by_cases hu : u = e.userId
      · subst hu; simp
      · simp [hu]
    by_cases ht : e.eventType = EventType.SOURCE_CLICKED
    · have hm : e.meta.bind EventMeta.features = none := by
        cases h : e.meta.bind EventMeta.features with
        | some f => exact absurd ⟨ht, by simp [h]⟩ hne
        | none => rfl
      simpa [logEvent, ht, hm] using tail
    · simpa [logEvent, ht] using tail
  refine ⟨?_, hview, ?_⟩
  · intro st e
    by_cases ht : e.eventType = EventType.SOURCE_CLICKED
    · cases hm : e.meta.bind EventMeta.features <;> simp [logEvent, ht, hm]
    · simp [logEvent, ht]
  · intro st e hne u a
    rw [hview st e hne u]
    exact ⟨rfl, rfl⟩

/-- Witness for C10: a `CITATION_HOVERED` event on a concrete store. -/
theorem logEvent_append_and_frame_witness :
    (logEvent ⟨"u1", 5, EventType.CITATION_HOVERED, none, none, none⟩
        ⟨[], []⟩).eventLog
      = ([] : List UserEvent) ++ [⟨"u1", 5, EventType.CITATION_HOVERED, none, none, none⟩]
    ∧ getUserBanditView "u1"
        (logEvent ⟨"u1", 5, EventType.CITATION_HOVERED, none, none, none⟩ ⟨[], []⟩)
      = getUserBanditView "u1" (⟨[], []⟩ : Store) := by
  constructor
  · exact logEvent_append_and_frame.1 ⟨[], []⟩ _
  · exact logEvent_append_and_frame.2.1 ⟨[], []⟩ _ (by intro h; exact absurd h.1 (by decide))
      "u1"

/-- The citation list built by the `processCitations` fold: one entry per
valid extracted index, in order. -/
theorem processCitations_fold_citations (docs : List RankedDoc) (idxs : List ℕ)
    (t0 : String) (cs0 : List Citation) :
    (idxs.foldl (processCitationsStep docs) (t0, cs0)).2
      = cs0 ++ (idxs.filter (fun n => decide (1 ≤ n) && decide (n ≤ docs.length))).map
          (fun n => ⟨n, (docs.getD (n - 1) defaultRankedDoc).id,
            citationPassage (docs.getD (n - 1) defaultRankedDoc).excerpt⟩) := by
  induction idxs generalizing t0 cs0 with
  | nil => simp
  | cons n rest ih =>
    by_cases h : n < 1 ∨ n > docs.length
    · have hf : (decide (1 ≤ n) && decide (n ≤ docs.length)) = false := by
        rcases h with h | h
        · simp [Nat.lt_one_iff.mp h]
        · simp
          omega
      have hnone : findBestMatchingSource n docs = none := by
        unfold findBestMatchingSource
        rw [if_pos (h.elim Or.inr Or.inl)]
      rw [List.foldl_cons]
      rw [show processCitationsStep docs (t0, cs0) n
          = (replaceAll t0 ("[" ++ toString n ++ "]") (toString n), cs0) by
        unfold processCitationsStep
        rw [if_pos h, hnone]]
      rw [ih, List.filter_cons, hf]
      simp
    · have h1 : 1 ≤ n := by omega
      have h2 : n ≤ docs.length := by omega
      have ht : (decide (1 ≤ n) && decide (n ≤ docs.length)) = true := by
        simp [h1, h2]
      rw [List.foldl_cons]
      rw [show processCitationsStep docs (t0, cs0) n
          = (t0, cs0 ++ [⟨n, (docs.getD (n - 1) defaultRankedDoc).id,
              citationPassage (docs.getD (n - 1) defaultRankedDoc).excerpt⟩]) by
        unfold processCitationsStep
        rw [if_neg h]]
      rw [ih, List.filter_cons, ht]
      simp

/-- The text built by the `processCitations` fold: every invalid index has
its exact bracketed form `[n]` replaced by the bare number; valid indices
leave the text untouched. -/
theorem processCitations_fold_text (docs : List RankedDoc) (idxs : List ℕ)
    (t0 : String) (cs0 : List Citation) :
    (idxs.foldl (processCitationsStep docs) (t0, cs0)).1
      = idxs.foldl
          (fun t n => if n < 1 ∨ n > docs.length
            then replaceAll t ("[" ++ toString n ++ "]") (toString n) else t) t0 := by
  induction idxs generalizing t0 cs0 with
  | nil => rfl
  | cons n rest ih =>
    by_cases h : n < 1 ∨ n > docs.length
    · have hnone : findBestMatchingSource n docs = none := by
        unfold findBestMatchingSource
        rw [if_pos (h.elim Or.inr Or.inl)]
      rw [List.foldl_cons, List.foldl_cons]
      rw [show processCitationsStep docs (t0, cs0) n
          = (replaceAll t0 ("[" ++ toString n ++ "]") (toString n), cs0) by
        unfold processCitationsStep
        rw [if_pos h, hnone]]
      rw [ih, if_pos h]
    · rw [List.foldl_cons, List.foldl_cons]
      rw [show processCitationsStep docs (t0, cs0) n
          = (t0, cs0 ++ [⟨n, (docs.getD (n - 1) defaultRankedDoc).id,
              citationPassage (docs.getD (n - 1) defaultRankedDoc).excerpt⟩]) by
        unfold processCitationsStep
        rw [if_neg h]]
      rw [ih, if_neg h]

theorem mem_filterWikipediaSources (hits : List SearchResult) (r : SearchResult) :
    r ∈ filterWikipediaSources hits ↔ r ∈ hits ∧ hostContainsWiki r.url = false := by
  simp [filterWikipediaSources, List.mem_filter]

/-- C7 counterexample: the host `notwikipedia.org` does not match
`*.wikipedia.org` or `*.wikimedia.org`, yet the filter step drops it
(`hostname.includes` is substring containment), even though five hits
remain so the filter is applied. -/
theorem wikipediaFilter_glob_counterexample :
    ((⟨"h6", "https://notwikipedia.org/x", "", "", ""⟩ : SearchResult)
        ∈ ([⟨"h1", "https://example1.com/a", "", "", ""⟩,
            ⟨"h2", "https://example2.com/a", "", "", ""⟩,
            ⟨"h3", "https://example3.com/a", "", "", ""⟩,
            ⟨"h4", "https://example4.com/a", "", "", ""⟩,
            ⟨"h5", "https://example5.com/a", "", "", ""⟩,
            ⟨"h6", "https://notwikipedia.org/x", "", "", ""⟩] : List SearchResult))
    ∧ ((⟨"h6", "https://notwikipedia.org/x", "", "", ""⟩ : SearchResult)
        ∉ applyWikipediaFilter
            [⟨"h1", "https://example1.com/a", "", "", ""⟩,
             ⟨"h2", "https://example2.com/a", "", "", ""⟩,
             ⟨"h3", "https://example3.com/a", "", "", ""⟩,
             ⟨"h4", "https://example4.com/a", "", "", ""⟩,
             ⟨"h5", "https://example5.com/a", "", "", ""⟩,
             ⟨"h6", "https://notwikipedia.org/x", "", "", ""⟩])
    ∧ urlHostname "https://notwikipedia.org/x" = some "notwikipedia.org"
    ∧ specWikiGlobHost "notwikipedia.org" = false := by
  refine ⟨by decide, by decide, by decide, by decide⟩

/-- C7 (amended): the authority filter drops exactly the hits whose
hostname *contains the substring* `wikipedia.org` or `wikimedia.org`
(which includes every `*.wikipedia.org` / `*.wikimedia.org` host but also
e.g. `notwikipedia.org`; unparseable URLs are kept), and the filtered
list is used only when it keeps at least 5 hits — otherwise the unfiltered
merged list is used and all dropped hits are retained. -/
theorem wikipediaFilter_substring_and_guard :
    (∀ hits : List SearchResult, (filterWikipediaSources hits).length < 5 →
      applyWikipediaFilter hits = hits)
    ∧ (∀ hits : List SearchResult, 5 ≤ (filterWikipediaSources hits).length →
      applyWikipediaFilter hits = filterWikipediaSources hits)
    ∧ (∀ (hits : List SearchResult) (r : SearchResult),
      r ∈ filterWikipediaSources hits ↔ r ∈ hits ∧ hostContainsWiki r.url = false) := by
  refine ⟨?_, ?_, ?_⟩
  · intro hits hlt
    unfold applyWikipediaFilter
    rw [if_neg (by omega)]
  · intro hits hge
    unfold applyWikipediaFilter
    rw [if_pos hge]
  · intro hits r
    exact mem_filterWikipediaSources hits r

/-- Witness for C7 (amended): the guard keeps a lone Wikipedia hit, and
applies the filter over the six-hit list. -/
theorem wikipediaFilter_substring_and_guard_witness :
    applyWikipediaFilter [⟨"w1", "https://en.wikipedia.org/wiki/X", "", "", ""⟩]
      = [⟨"w1", "https://en.wikipedia.org/wiki/X", "", "", ""⟩]
    ∧ applyWikipediaFilter
        [⟨"h1", "https://example1.com/a", "", "", ""⟩,
         ⟨"h2", "https://example2.com/a", "", "", ""⟩,
         ⟨"h3", "https://example3.com/a", "", "", ""⟩,
         ⟨"h4", "https://example4.com/a", "", "", ""⟩,
         ⟨"h5", "https://example5.com/a", "", "", ""⟩,
         ⟨"h6", "https://notwikipedia.org/x", "", "", ""⟩]
      = filterWikipediaSources
          [⟨"h1", "https://example1.com/a", "", "", ""⟩,
           ⟨"h2", "https://example2.com/a", "", "", ""⟩,
           ⟨"h3", "https://example3.com/a", "", "", ""⟩,
           ⟨"h4", "https://example4.com/a", "", "", ""⟩,
           ⟨"h5", "https://example5.com/a", "", "", ""⟩,
           ⟨"h6", "https://notwikipedia.org/x", "", "", ""⟩] := by
  constructor
  · exact wikipediaFilter_substring_and_guard.1
      [⟨"w1", "https://en.wikipedia.org/wiki/X", "", "", ""⟩] (by decide)
  · exact wikipediaFilter_substring_and_guard.2.1 _ (by decide)

theorem string_append_left_cancel (s t u : String) : s ++ t = s ++ u ↔ t = u := by
  constructor
  · intro h
    have h2 := congrArg String.data h
    simp at h2
    exact String.ext h2
  · intro h
    rw [h]

/-- C8 counterexample: the URLs `http://example.com/a` and
`https://example.com/a` are equal under the §4.3 normalization (scheme is
ignored), yet `searchWithBrave` hashes the exact URL string, so their ids
differ. -/
theorem braveId_normalization_counterexample :
    normalizeUrl "http://example.com/a" = normalizeUrl "https://example.com/a"
      ∧ braveId "http://example.com/a" ≠ braveId "https://example.com/a" := by
  constructor
  · decide
  · decide

/-- C8 (amended): `SearchHit.id` is `brave-` plus the first 8 hex digits
of the MD5 of the *exact* URL string, so ids collide exactly when those
truncated digests collide — equal URLs always get equal ids, but URLs that
differ only in scheme, leading `www.` or trailing slash generally get
different ids (normalization-based collapsing happens in the parallel
searcher's dedup, which keys on `normalizeUrl`, not on the id), as the
concrete scheme-differing pair shows. -/
theorem braveId_raw_url_hash :
    (∀ u v : String,
      braveId u = braveId v ↔ (md5Hex (strBytes u)).take 8 = (md5Hex (strBytes v)).take 8)
    ∧ normalizeUrl "http://example.com/a" = normalizeUrl "https://example.com/a"
    ∧ braveId "http://example.com/a" ≠ braveId "https://example.com/a" := by
  refine ⟨?_, by decide, by decide⟩
  · intro u v
    unfold braveId
    exact string_append_left_cancel "brave-" _ _

theorem countP_terminal_chunks (l : List String) :
    (l.map SseFrame.chunk).countP (fun f => isTerminal f) = 0 := by
  induction l with
  | nil => rfl
  | cons c rest ih => simp [isTerminal, ih]

/-- C9: whatever combination of stage outcomes occurs — body parsing, the
planner's LLM call, the search, the scrape, the synthesis or the final
validation failing or succeeding — the SSE stream the answer handler
writes contains exactly one terminal frame (`complete` or `error`). -/
theorem answer_stream_single_terminal :
    ∀ o : AnswerOutcomes, (handleAnswer o).countP (fun f => isTerminal f) = 1 := by
  intro o
  obtain ⟨parsed, planLLM, searchO, scrapeO, chunks, synthO, valO⟩ := o
  cases parsed <;> cases searchO <;> cases scrapeO <;> cases synthO <;> cases valO <;>
    simp [handleAnswer, isTerminal, countP_terminal_chunks, List.countP_cons,
      List.countP_append]

/-- C4 counterexample: over a single source whose excerpt has 201
characters, the text `[2,1]` yields (i) a processed text in which the
out-of-range index 2 keeps its brackets (the strip regex only matches the
standalone group `[2]`), and (ii) a citation whose passage is the first
200 characters plus `...` — 203 characters, not a truncation to at most
200. -/
theorem processCitations_claim_counterexample :
    (processCitations "[2,1]"
        [⟨"d1", "t", String.mk (List.replicate 201 'a'), "x.com", 0, "", none⟩]).1
      = "[2,1]"
    ∧ (processCitations "[2,1]"
        [⟨"d1", "t", String.mk (List.replicate 201 'a'), "x.com", 0, "", none⟩]).2
      = [⟨1, "d1", String.mk (List.replicate 200 'a') ++ "..."⟩]
    ∧ (String.mk (List.replicate 200 'a') ++ "...").length = 203
    ∧ ¬ ((String.mk (List.replicate 200 'a') ++ "...").length ≤ 200) := by
  refine ⟨?_, ?_, ?_, ?_⟩ <;> decide

/-- C4 (amended): every in-range citation index n yields the citation
`{index := n, sourceId := sources[n-1].id, passage}` where the passage is
the excerpt itself when at most 200 characters and its first 200
characters plus an ellipsis otherwise; no out-of-range index yields a
citation; and each out-of-range index n has exactly its standalone
bracket group `[n]` replaced by the bare number (so `[99]` over five
sources becomes `99` — but an out-of-range index inside a multi-index
group keeps its brackets). -/
theorem processCitations_valid_and_strip :
    (∀ (text : String) (docs : List RankedDoc),
      (processCitations text docs).2
        = ((extractCitationIndices text).filter
              (fun n => decide (1 ≤ n) && decide (n ≤ docs.length))).map
            (fun n => ⟨n, (docs.getD (n - 1) defaultRankedDoc).id,
              citationPassage (docs.getD (n - 1) defaultRankedDoc).excerpt⟩))
    ∧ (∀ (text : String) (docs : List RankedDoc),
      (processCitations text docs).1
        = (extractCitationIndices text).foldl
            (fun t n => if n < 1 ∨ n > docs.length
              then replaceAll t ("[" ++ toString n ++ "]") (toString n) else t) text)
    ∧ (∀ (text : String) (docs : List RankedDoc) (n : ℕ),
      n ∈ extractCitationIndices text → 1 ≤ n → n ≤ docs.length →
        (⟨n, (docs.getD (n - 1) defaultRankedDoc).id,
          citationPassage (docs.getD (n - 1) defaultRankedDoc).excerpt⟩ : Citation)
          ∈ (processCitations text docs).2)
    ∧ (∀ (text : String) (docs : List RankedDoc) (c : Citation),
      c ∈ (processCitations text docs).2 → 1 ≤ c.index ∧ c.index ≤ docs.length)
    ∧ (processCitations "foo [99] bar"
          [⟨"s1", "", "e1", "", 0, "", none⟩, ⟨"s2", "", "e2", "", 0, "", none⟩,
           ⟨"s3", "", "e3", "", 0, "", none⟩, ⟨"s4", "", "e4", "", 0, "", none⟩,
           ⟨"s5", "", "e5", "", 0, "", none⟩]).1 = "foo 99 bar"
    ∧ (processCitations "foo [99] bar"
          [⟨"s1", "", "e1", "", 0, "", none⟩, ⟨"s2", "", "e2", "", 0, "", none⟩,
           ⟨"s3", "", "e3", "", 0, "", none⟩, ⟨"s4", "", "e4", "", 0, "", none⟩,
           ⟨"s5", "", "e5", "", 0, "", none⟩]).2 = [] := by
  have hcit : ∀ (text : String) (docs : List RankedDoc),
      (processCitations text docs).2
        = ((extractCitationIndices text).filter
              (fun n => decide (1 ≤ n) && decide (n ≤ docs.length))).map
            (fun n => ⟨n, (docs.getD (n - 1) defaultRankedDoc).id,
              citationPassage (docs.getD (n - 1) defaultRankedDoc).excerpt⟩) := by
    intro text docs
    unfold processCitations
    rw [processCitations_fold_citations]
    simp
  refine ⟨hcit, ?_, ?_, ?_, ?_, ?_⟩
  · intro text docs
    unfold processCitations
    rw [processCitations_fold_text]
  · intro text docs n hmem h1 h2
    rw [hcit]
    apply List.mem_map_of_mem
    rw [List.mem_filter]
    exact ⟨hmem, by simp [h1, h2]⟩
  · intro text docs c hc
    rw [hcit] at hc
    obtain ⟨n, hn, hceq⟩ := List.mem_map.mp hc
    have hv := (List.mem_filter.mp hn).2
    simp only [Bool.and_eq_true, decide_eq_true_eq] at hv
    rw [← hceq]
    exact hv
  · decide
  · decide

/-- Witness for C4 (amended): applied at the concrete text `see [1]` over
one source. -/
theorem processCitations_valid_and_strip_witness :
    (⟨1, "d1", citationPassage "exc"⟩ : Citation)
      ∈ (processCitations "see [1]" [⟨"d1", "t", "exc", "x.com", 0, "", none⟩]).2 := by
  have h := processCitations_valid_and_strip.2.2.1 "see [1]"
    [⟨"d1", "t", "exc", "x.com", 0, "", none⟩] 1 (by decide) (by decide) (by decide)
  simpa using h

/-- C6: the planner returns 1–5 sub-queries and never raises; any failure
of the LLM call yields the plan with exactly the original query and
strategy `fallback`. -/
theorem createQueryPlan_bounds_and_fallback :
    (∀ (q : String) (r : Except String (List String)),
      1 ≤ (createQueryPlan q r).subQueries.length
        ∧ (createQueryPlan q r).subQueries.length ≤ 5)
    ∧ (∀ (q err : String),
      createQueryPlan q (Except.error err) = ⟨q, [q], "fallback"⟩) := by
  constructor
  · intro q r
    cases r with
    | error e => simp [createQueryPlan]
    | ok subs =>
      by_cases h : 2 ≤ subs.length ∧ subs.length ≤ 5
      · simp only [createQueryPlan, if_pos h, List.length_take]
        omega
      · simp [createQueryPlan, if_neg h]
  · intro q err
    rfl

/-- C5: personalization multiplies each document's score by
`min(1 + 0.3·boost, 1.3)` where `boost` is the mean of the bandit scores
present for the document's feature arms; hence no score grows by more than
the 1.3 cap; the output is the boosted documents re-sorted descending; and
an empty bandit state makes the function the identity. -/
theorem applyPersonalization_boost_cap_identity :
    (∀ (u : String) (st : Store) (docs : List RankedDoc),
      (getUserBanditView u st).arms = [] → applyPersonalization u st docs = docs)
    ∧ (∀ (scores : List (String × ℚ)) (doc : RankedDoc),
      (personalizeDoc scores doc).score
        = doc.score * min (1 + specBoost scores doc * (3 / 10)) (13 / 10))
    ∧ (∀ (scores : List (String × ℚ)) (doc : RankedDoc), 0 ≤ doc.score →
      (personalizeDoc scores doc).score ≤ (13 / 10) * doc.score)
    ∧ (∀ (u : String) (st : Store) (docs : List RankedDoc),
      (getUserBanditScores u st).isEmpty = false →
        (applyPersonalization u st docs).Perm
            (docs.map (personalizeDoc (getUserBanditScores u st)))
          ∧ List.Sorted (fun a b : RankedDoc => b.score ≤ a.score)
              (applyPersonalization u st docs)) := by
  have hscore : ∀ (scores : List (String × ℚ)) (doc : RankedDoc),
      (personalizeDoc scores doc).score
        = doc.score * min (1 + specBoost scores doc * (3 / 10)) (13 / 10) := by
    intro scores doc
    unfold personalizeDoc specBoost
    cases hf : doc.features with
    | none => simp
    | some f =>
      simp only
      have hmap := filterMap_pairs_snd (featuresToArms f) scores
      have hlen : ((featuresToArms f).filterMap
            (fun a => (mapGet a scores).map (fun s => (a, s)))).length
          = ((featuresToArms f).filterMap (fun a => mapGet a scores)).length := by
        rw [← hmap, List.length_map]
      by_cases he : ((featuresToArms f).filterMap
          (fun a => (mapGet a scores).map (fun s => (a, s)))).isEmpty
      · have he2 : ((featuresToArms f).filterMap (fun a => mapGet a scores)).isEmpty := by
          rw [List.isEmpty_iff_length_eq_zero] at he ⊢
          omega
        simp [he, he2]
      · have he2 : ¬ ((featuresToArms f).filterMap (fun a => mapGet a scores)).isEmpty := by
          rw [List.isEmpty_iff_length_eq_zero] at he ⊢
          omega
        simp [he, he2, hmap, hlen]
  refine ⟨?_, hscore, ?_, ?_⟩
  · intro u st docs hempty
    unfold applyPersonalization getUserBanditScores getArmScores
    rw [hempty]
    simp
  · intro scores doc hpos
    rw [hscore]
    have h1 : min (1 + specBoost scores doc * (3 / 10)) (13 / 10) ≤ 13 / 10 :=
      min_le_right _ _
    calc doc.score * min (1 + specBoost scores doc * (3 / 10)) (13 / 10)
        ≤ doc.score * (13 / 10) := by
          exact mul_le_mul_of_nonneg_left h1 hpos
      _ = (13 / 10) * doc.score := by ring
  · intro u st docs hne
    have happ : applyPersonalization u st docs
        = (docs.map (personalizeDoc (getUserBanditScores u st))).mergeSort
            (fun a b => decide (b.score ≤ a.score)) := by
      simp [applyPersonalization, hne]
    constructor
    · rw [happ]
      exact List.mergeSort_perm _ _
    · rw [happ]
      have htr : ∀ (a b c : RankedDoc),
          (fun a b : RankedDoc => decide (b.score ≤ a.score)) a b = true →
          (fun a b : RankedDoc => decide (b.score ≤ a.score)) b c = true →
          (fun a b : RankedDoc => decide (b.score ≤ a.score)) a c = true := by
        intro a b c hab hbc
        simp only [decide_eq_true_eq] at hab hbc ⊢
        exact le_trans hbc hab
      have hto : ∀ (a b : RankedDoc),
          ((fun a b : RankedDoc => decide (b.score ≤ a.score)) a b
            || (fun a b : RankedDoc => decide (b.score ≤ a.score)) b a) = true := by
        intro a b
        simp only [Bool.or_eq_true, decide_eq_true_eq]
        exact le_total b.score a.score
      have hs := List.sorted_mergeSort htr hto
        (docs.map (personalizeDoc (getUserBanditScores u st)))
      exact hs.imp (fun h => of_decide_eq_true h)

/-- Witness for C5: the theorem applied at concrete stores — an empty
bandit (identity case) and a one-arm bandit (boost, cap and sort case). -/
theorem applyPersonalization_boost_cap_identity_witness :
    applyPersonalization "u1" ⟨[], []⟩
        [⟨"d1", "t", "e", "x.com", 1, "matched query", none⟩]
      = [⟨"d1", "t", "e", "x.com", 1, "matched query", none⟩]
    ∧ (personalizeDoc [] ⟨"d1", "t", "e", "x.com", 1, "matched query", none⟩).score
        ≤ (13 / 10) * (1 : ℚ)
    ∧ List.Sorted (fun a b : RankedDoc => b.score ≤ a.score)
        (applyPersonalization "u1"
          ⟨[], [("u1", ⟨[("depth:expert", ⟨1, 0⟩)], []⟩)]⟩
          [⟨"d1", "t", "e", "x.com", 1, "matched query", none⟩]) := by
  refine ⟨?_, ?_, ?_⟩
  · exact applyPersonalization_boost_cap_identity.1 "u1" ⟨[], []⟩ _ rfl
  · exact applyPersonalization_boost_cap_identity.2.2.1 [] _ (by norm_num)
  · exact (applyPersonalization_boost_cap_identity.2.2.2 "u1"
      ⟨[], [("u1", ⟨[("depth:expert", ⟨1, 0⟩)], []⟩)]⟩
      [⟨"d1", "t", "e", "x.com", 1, "matched query", none⟩]
      (by simp [getUserBanditScores, getUserBanditView, getArmScores, mapGet])).2

/-- C3: `getArmScores` returns, for exactly the tracked arms, the
deterministic Beta mean `(successes + 1)/(successes + failures + 2)`
(absent arms yield no entry), and repeated calls on the same state return
the same map. -/
theorem getArmScores_beta_mean :
    (∀ (b : Bandit) (x : String),
      mapGet x (getArmScores b)
        = (getArmStats x b).map
            (fun s => (s.successes + 1) / (s.successes + s.failures + 2)))
    ∧ (∀ b : Bandit, getArmScores b = getArmScores b) := by
  constructor
  · intro b x
    unfold getArmScores getArmStats
    rw [mapGet_mapSnd (fun s => sampleBeta (s.successes + 1) (s.failures + 1)) x b.arms]
    cases h : mapGet x b.arms with
    | none => rfl
    | some s =>
      have hd : s.successes + 1 + (s.failures + 1) = s.successes + s.failures + 2 := by
        ring
      simp [sampleBeta, hd]
  · intro b
    rfl

end BetterPerplexity
